import Mathlib

/- Verification of the snapshot-differencing and ranking engine of
`scripts/make-top10.js`: the per-authority aggregation `byLA`, the ranking
`top10`, and the tolerant state loader `readJSONSafe`.

JavaScript semantics captured by the embedding:
* a JS `Map` is its insertion-ordered association list (`set` keeps the
  position of an existing key, appends a new one; `keys()` iterates in that
  order);
* a JS `Set` built from a list keeps first occurrences in order;
* `Array.prototype.sort` is stable (ES2019), and the comparators used here
  compare deltas only, so ties keep encounter order — modelled by the stable
  `List.insertionSort`;
* JS machine numbers here are small integer counts and their differences,
  far below 2^53, so `Nat`/`Int` model them exactly. -/

set_option maxRecDepth 40000

namespace Pulse

/-- A parsed business record as produced by `parseCurrentBusinesses`:
`{ id, la, type }`. -/
structure Business where
  id : String
  la : String
  type : String
deriving DecidableEq, Repr

/-- The `SECTORS` constant of the script: internal key to sector label. -/
def SECTORS : List (String × String) :=
  [("MOBILE", "Mobile caterer"),
   ("RESTAURANT_CAFE", "Restaurant/Cafe/Canteen"),
   ("PUB_BAR", "Pub/bar/nightclub"),
   ("TAKEAWAY", "Takeaway/sandwich shop")]

/-- The `MONITORED` set: the tracked sector labels. -/
def MONITORED : List String := SECTORS.map (fun s => s.2)

/-- JavaScript `Map.get` on a count table: the value stored at key `k`. -/
def mget (m : List (String × Nat)) (k : String) : Option Nat :=
  match m with
  | [] => none
  | p :: rest => if p.1 = k then some p.2 else mget rest k

/-- JavaScript `Map.set`: overwrite in place if the key exists (keeping its
position), otherwise append at the end (insertion order). -/
def mset (m : List (String × Nat)) (k : String) (v : Nat) : List (String × Nat) :=
  match m with
  | [] => [(k, v)]
  | p :: rest => if p.1 = k then (k, v) :: rest else p :: mset rest k v

/-- The normalization `e.la || "Unknown"`: a JS string is falsy exactly when
it is empty, so an empty authority name falls back to the sentinel. -/
def orUnknown (s : String) : String := if s = "" then "Unknown" else s

/-- One loop iteration of `byLA`: skip records of another sector, otherwise
`m.set(la, (m.get(la) || 0) + 1)` at the normalized authority (stored counts
are at least 1, so `|| 0` is exactly the missing-key default). -/
def bump (wantedType : String) (m : List (String × Nat)) (e : Business) :
    List (String × Nat) :=
  if e.type = wantedType then
    mset m (orUnknown e.la) ((mget m (orUnknown e.la)).getD 0 + 1)
  else m

/-- `byLA(items, wantedType)`: per-authority record counts for one sector. -/
def byLA (items : List Business) (wantedType : String) : List (String × Nat) :=
  items.foldl (bump wantedType) []

/-- JavaScript `Set` insertion: append at the end unless already present. -/
def insKey (acc : List String) (k : String) : List String :=
  if k ∈ acc then acc else acc ++ [k]

/-- `new Set([...p.keys(), ...c.keys()])` iterated in insertion order: the
first occurrence of each key survives, in order of first appearance. -/
def unionKeys (ks : List String) : List String := ks.foldl insKey []

/-- One ranking row `{ la, delta, current }`. -/
structure Row where
  la : String
  delta : Int
  current : Nat
deriving DecidableEq, Repr

/-- The row built for one authority in `top10`:
`delta = (c.get(la) || 0) - (p.get(la) || 0)`, `current = c.get(la) || 0`. -/
def mkRow (p c : List (String × Nat)) (la : String) : Row :=
  { la := la
    delta := ((mget c la).getD 0 : Int) - ((mget p la).getD 0 : Int)
    current := (mget c la).getD 0 }

/-- Association-list keys, the iteration order of `map.keys()`. -/
def keysOf (m : List (String × Nat)) : List String := m.map (fun p => p.1)

/-- The `rows` array of `top10`: one row per authority in the union of the
two tables' key sets, in first-occurrence order (the previous table's keys
in insertion order, then the current table's remaining keys). -/
def rowsOf (prev curr : List Business) (wantedType : String) : List Row :=
  (unionKeys (keysOf (byLA prev wantedType) ++ keysOf (byLA curr wantedType))).map
    (mkRow (byLA prev wantedType) (byLA curr wantedType))

/-- The growth comparator `(a, b) => b.delta - a.delta` as the non-strict
descending order it sorts by. -/
def gdesc (a b : Row) : Prop := b.delta ≤ a.delta

/-- The reductions comparator `(a, b) => a.delta - b.delta` as the
non-strict ascending order it sorts by. -/
def lasc (a b : Row) : Prop := a.delta ≤ b.delta

instance : DecidableRel gdesc := fun a b => inferInstanceAs (Decidable (_ ≤ _))

instance : DecidableRel lasc := fun a b => inferInstanceAs (Decidable (_ ≤ _))

instance : IsTotal Row gdesc := ⟨fun a b => le_total b.delta a.delta⟩

instance : IsTrans Row gdesc := ⟨fun _ _ _ h1 h2 => le_trans h2 h1⟩

instance : IsTotal Row lasc := ⟨fun a b => le_total a.delta b.delta⟩

instance : IsTrans Row lasc := ⟨fun _ _ _ h1 h2 => le_trans h1 h2⟩

/-- The result of `top10`: `{ growth, reductions }`. -/
structure Ranking where
  growth : List Row
  reductions : List Row
deriving DecidableEq, Repr

/-- `top10(prev, curr, wantedType)`: partition the rows by the sign of the
delta, sort stably (descending for growth, ascending for reductions) and
truncate with `slice(0, 10)`. -/
def top10 (prev curr : List Business) (wantedType : String) : Ranking :=
  { growth :=
      (List.insertionSort gdesc
        ((rowsOf prev curr wantedType).filter (fun r => decide (0 < r.delta)))).take 10
    reductions :=
      (List.insertionSort lasc
        ((rowsOf prev curr wantedType).filter (fun r => decide (r.delta < 0)))).take 10 }

/-- The fallible read in `readJSONSafe` embedded as an `Option`:
`JSON.parse(fs.readFileSync(p))` either yields a value (`some`) or throws
(absent or unparseable file: `none`), and the `catch` returns the fallback. -/
def readJSONSafe {α : Type} (parsed : Option α) (fallback : α) : α :=
  parsed.getD fallback

/-- Specification-side count: the number of records of the given sector
whose normalized authority name is `k`. -/
def cntLA (items : List Business) (wantedType k : String) : Nat :=
  items.countP (fun e => decide (e.type = wantedType ∧ orUnknown e.la = k))

theorem mget_mset (m : List (String × Nat)) (k : String) (v : Nat) (k' : String) :
    mget (mset m k v) k' = if k' = k then some v else mget m k' := by
  induction m with
  | nil =>
    by_cases h : k = k'
    · simp [mset, mget, h]
    · simp [mset, mget, h, Ne.symm h]
  | cons p rest ih =>
    by_cases hp : p.1 = k
    · by_cases h : k = k'
      · simp [mset, mget, hp, h]
      · simp [mset, mget, hp, h, Ne.symm h]
    · by_cases hq : p.1 = k'
      · have hk : ¬(k' = k) := fun hh => hp (hq.trans hh)
        simp [mset, mget, hp, hq, hk]
      · simp [mset, mget, hp, hq, ih]

theorem keysOf_mset (m : List (String × Nat)) (k : String) (v : Nat) :
    keysOf (mset m k v) =
      if (mget m k).isSome then keysOf m else keysOf m ++ [k] := by
  induction m with
  | nil => simp [mset, keysOf, mget]
  | cons p rest ih =>
    by_cases hp : p.1 = k
    · simp [mset, keysOf, mget, hp]
    · simp only [mset, keysOf, mget, hp, if_false, List.map_cons]
      by_cases hs : (mget rest k).isSome <;>
        simp [hs, keysOf] at ih ⊢ <;> simp [ih]

theorem mem_keysOf_iff (m : List (String × Nat)) (k : String) :
    k ∈ keysOf m ↔ (mget m k).isSome := by
  induction m with
  | nil => simp [keysOf, mget]
  | cons p rest ih =>
    simp only [keysOf] at ih ⊢
    by_cases hp : p.1 = k
    · simp [mget, hp]
    · have hne : ¬(k = p.1) := fun h => hp h.symm
      simp [mget, hp, hne, ih]

theorem nodup_keysOf_mset (m : List (String × Nat)) (k : String) (v : Nat)
    (h : (keysOf m).Nodup) : (keysOf (mset m k v)).Nodup := by
  rw [keysOf_mset]
  by_cases hs : (mget m k).isSome
  · simpa [hs]
  · have hk : k ∉ keysOf m := by
      rw [mem_keysOf_iff]
      simpa using hs
    simp [hs, List.nodup_append, h, hk]

theorem cntLA_cons (e : Business) (l : List Business) (t k : String) :
    cntLA (e :: l) t k =
      cntLA l t k + if e.type = t ∧ orUnknown e.la = k then 1 else 0 := by
  simp [cntLA, List.countP_cons]

theorem mget_bump_getD (t : String) (m : List (String × Nat)) (e : Business)
    (k : String) :
    (mget (bump t m e) k).getD 0 =
      (mget m k).getD 0 + if e.type = t ∧ orUnknown e.la = k then 1 else 0 := by
  by_cases ht : e.type = t
  · by_cases hla : orUnknown e.la = k
    · simp [bump, ht, hla, mget_mset]
    · have hne : ¬(k = orUnknown e.la) := fun h => hla h.symm
      simp [bump, ht, hla, mget_mset, hne]
  · simp [bump, ht]

theorem mget_bump_isSome (t : String) (m : List (String × Nat)) (e : Business)
    (k : String) :
    (mget (bump t m e) k).isSome ↔
      (mget m k).isSome ∨ (e.type = t ∧ orUnknown e.la = k) := by
  by_cases ht : e.type = t
  · by_cases hla : orUnknown e.la = k
    · simp [bump, ht, hla, mget_mset]
    · have hne : ¬(k = orUnknown e.la) := fun h => hla h.symm
      simp [bump, ht, hla, mget_mset, hne]
  · simp [bump, ht]

theorem foldl_bump_getD (l : List Business) (t : String)
    (m : List (String × Nat)) (k : String) :
    (mget (l.foldl (bump t) m) k).getD 0 = (mget m k).getD 0 + cntLA l t k := by
  induction l generalizing m with
  | nil => simp [cntLA]
  | cons e rest ih =>
    simp only [List.foldl_cons]
    rw [ih, mget_bump_getD, cntLA_cons]
    omega

theorem foldl_bump_isSome (l : List Business) (t : String)
    (m : List (String × Nat)) (k : String) :
    (mget (l.foldl (bump t) m) k).isSome ↔
      (mget m k).isSome ∨ cntLA l t k ≠ 0 := by
  induction l generalizing m with
  | nil => simp [cntLA]
  | cons e rest ih =>
    simp only [List.foldl_cons]
    rw [ih, mget_bump_isSome, cntLA_cons]
    by_cases h : e.type = t ∧ orUnknown e.la = k <;> simp [h] <;> omega

theorem byLA_getD (l : List Business) (t k : String) :
    (mget (byLA l t) k).getD 0 = cntLA l t k := by
  simpa [mget] using foldl_bump_getD l t [] k

theorem byLA_isSome (l : List Business) (t k : String) :
    (mget (byLA l t) k).isSome ↔ cntLA l t k ≠ 0 := by
  simpa [mget] using foldl_bump_isSome l t [] k

theorem byLA_mget_eq (l : List Business) (t k : String) :
    mget (byLA l t) k = if cntLA l t k = 0 then none else some (cntLA l t k) := by
  have hg := byLA_getD l t k
  have hs := byLA_isSome l t k
  by_cases h : cntLA l t k = 0
  · simp only [h, if_pos]
    cases hm : mget (byLA l t) k with
    | none => rfl
    | some v => simp [hm, h] at hs
  · simp only [h, if_neg, not_false_iff]
    cases hm : mget (byLA l t) k with
    | none => simp [hm, h] at hs
    | some v => simp [hm] at hg; simp [hg]

theorem byLA_nodup_keys (l : List Business) (t : String) :
    (keysOf (byLA l t)).Nodup := by
  have aux : ∀ (l : List Business) (m : List (String × Nat)),
      (keysOf m).Nodup → (keysOf (l.foldl (bump t) m)).Nodup := by
    intro l
    induction l with
    | nil => intro m hm; simpa using hm
    | cons e rest ih =>
      intro m hm
      simp only [List.foldl_cons]
      apply ih
      by_cases ht : e.type = t
      · simpa [bump, ht] using nodup_keysOf_mset m (orUnknown e.la) _ hm
      · simpa [bump, ht] using hm
  simpa [keysOf] using aux l [] (by simp [keysOf])

theorem mem_insKey (acc : List String) (k k' : String) :
    k' ∈ insKey acc k ↔ k' ∈ acc ∨ k' = k := by
  by_cases h : k ∈ acc
  · simp only [insKey, if_pos h]
    constructor
    · exact Or.inl
    · rintro (h1 | rfl)
      · exact h1
      · exact h
  · simp [insKey, h]

theorem nodup_insKey (acc : List String) (k : String) (h : acc.Nodup) :
    (insKey acc k).Nodup := by
  by_cases hk : k ∈ acc
  · simpa [insKey, hk] using h
  · simp [insKey, hk, List.nodup_append, h]

theorem mem_foldl_insKey (ks : List String) (acc : List String) (k : String) :
    k ∈ ks.foldl insKey acc ↔ k ∈ acc ∨ k ∈ ks := by
  induction ks generalizing acc with
  | nil => simp
  | cons a rest ih =>
    simp only [List.foldl_cons]
    rw [ih, mem_insKey]
    simp [List.mem_cons, or_assoc]

theorem nodup_foldl_insKey (ks acc : List String) (h : acc.Nodup) :
    (ks.foldl insKey acc).Nodup := by
  induction ks generalizing acc with
  | nil => simpa using h
  | cons a rest ih =>
    simp only [List.foldl_cons]
    exact ih _ (nodup_insKey _ _ h)

theorem mem_unionKeys (ks : List String) (k : String) :
    k ∈ unionKeys ks ↔ k ∈ ks := by
  simp [unionKeys, mem_foldl_insKey]

theorem nodup_unionKeys (ks : List String) : (unionKeys ks).Nodup :=
  nodup_foldl_insKey ks [] (by simp)

theorem mget_eq_some_iff (m : List (String × Nat)) (h : (keysOf m).Nodup)
    (k : String) (v : Nat) : mget m k = some v ↔ (k, v) ∈ m := by
  induction m with
  | nil => simp [mget]
  | cons p rest ih =>
    obtain ⟨pk, pv⟩ := p
    simp only [keysOf, List.map_cons, List.nodup_cons] at h
    by_cases hp : pk = k
    · subst hp
      simp only [mget, if_pos rfl, List.mem_cons]
      constructor
      · intro hv
        obtain rfl : pv = v := by simpa using hv
        exact Or.inl rfl
      · rintro (heq | hmem)
        · obtain rfl : v = pv := by simpa using heq
          rfl
        · exact absurd (List.mem_map_of_mem (fun p => p.1) hmem) h.1
    · simp only [mget, if_neg hp, List.mem_cons]
      rw [ih h.2]
      constructor
      · exact Or.inr
      · rintro (heq | hmem)
        · exact absurd (congrArg Prod.fst heq).symm hp
        · exact hmem

theorem mget_eq_of_perm (m1 m2 : List (String × Nat)) (hperm : m1.Perm m2)
    (h1 : (keysOf m1).Nodup) (h2 : (keysOf m2).Nodup) (k : String) :
    mget m1 k = mget m2 k := by
  cases hm : mget m1 k with
  | some v =>
    have hv : (k, v) ∈ m1 := (mget_eq_some_iff m1 h1 k v).1 hm
    exact ((mget_eq_some_iff m2 h2 k v).2 (hperm.mem_iff.1 hv)).symm
  | none =>
    cases hm2 : mget m2 k with
    | none => rfl
    | some v =>
      have hv : (k, v) ∈ m1 := hperm.mem_iff.2 ((mget_eq_some_iff m2 h2 k v).1 hm2)
      rw [(mget_eq_some_iff m1 h1 k v).2 hv] at hm
      exact absurd hm (by simp)

theorem mkRow_la (p c : List (String × Nat)) (la : String) :
    (mkRow p c la).la = la := rfl

theorem mem_rowsOf (prev curr : List Business) (t : String) (r : Row) :
    r ∈ rowsOf prev curr t ↔
      ∃ la, ((mget (byLA prev t) la).isSome ∨ (mget (byLA curr t) la).isSome) ∧
        mkRow (byLA prev t) (byLA curr t) la = r := by
  simp only [rowsOf, List.mem_map, mem_unionKeys, List.mem_append,
    mem_keysOf_iff]

theorem eq_mkRow_of_mem_rowsOf (prev curr : List Business) (t : String)
    (r : Row) (h : r ∈ rowsOf prev curr t) :
    r = mkRow (byLA prev t) (byLA curr t) r.la := by
  obtain ⟨la, _, heq⟩ := (mem_rowsOf prev curr t r).1 h
  have hla : r.la = la := by rw [← heq, mkRow_la]
  rw [hla, heq]

theorem filter_orderedInsert_eqd (rel : Row → Row → Prop) [DecidableRel rel]
    (d : Int) (a : Row) (ha : a.delta = d)
    (hcom : ∀ b : Row, ¬rel a b → b.delta ≠ d) :
    ∀ l : List Row,
      (List.orderedInsert rel a l).filter (fun x => decide (x.delta = d)) =
        a :: l.filter (fun x => decide (x.delta = d))
  | [] => by simp [ha]
  | b :: l => by
    by_cases hr : rel a b
    · simp [List.orderedInsert, hr, List.filter_cons, ha]
    · have hb : b.delta ≠ d := hcom b hr
      simp only [List.orderedInsert, if_neg hr, List.filter_cons]
      simp [hb, filter_orderedInsert_eqd rel d a ha hcom l]

theorem filter_orderedInsert_ned (rel : Row → Row → Prop) [DecidableRel rel]
    (d : Int) (a : Row) (ha : a.delta ≠ d) :
    ∀ l : List Row,
      (List.orderedInsert rel a l).filter (fun x => decide (x.delta = d)) =
        l.filter (fun x => decide (x.delta = d))
  | [] => by simp [ha]
  | b :: l => by
    by_cases hr : rel a b
    · simp [List.orderedInsert, hr, List.filter_cons, ha]
    · simp only [List.orderedInsert, if_neg hr, List.filter_cons]
      simp [ha, filter_orderedInsert_ned rel d a ha l, List.filter_cons]

theorem filter_insertionSort (rel : Row → Row → Prop) [DecidableRel rel]
    (d : Int) (hcom : ∀ a b : Row, a.delta = d → ¬rel a b → b.delta ≠ d) :
    ∀ l : List Row,
      (List.insertionSort rel l).filter (fun x => decide (x.delta = d)) =
        l.filter (fun x => decide (x.delta = d))
  | [] => by simp
  | a :: l => by
    by_cases ha : a.delta = d
    · simp only [List.insertionSort]
      rw [filter_orderedInsert_eqd rel d a ha (fun b hb => hcom a b ha hb),
        filter_insertionSort rel d hcom l]
      simp [List.filter_cons, ha]
    · simp only [List.insertionSort]
      rw [filter_orderedInsert_ned rel d a ha,
        filter_insertionSort rel d hcom l]
      simp [List.filter_cons, ha]

/-- Specification-side delta of one authority between the two aggregates. -/
def deltaOf (prev curr : List Business) (t la : String) : Int :=
  ((mget (byLA curr t) la).getD 0 : Int) - ((mget (byLA prev t) la).getD 0 : Int)

/-- The authority appears in at least one of the two aggregate tables. -/
def inUnion (prev curr : List Business) (t la : String) : Prop :=
  (mget (byLA prev t) la).isSome ∨ (mget (byLA curr t) la).isSome

theorem mem_of_mem_growth (prev curr : List Business) (t : String) (r : Row)
    (h : r ∈ (top10 prev curr t).growth) :
    r ∈ rowsOf prev curr t ∧ 0 < r.delta := by
  simp only [top10] at h
  have h1 : r ∈ List.insertionSort gdesc
      ((rowsOf prev curr t).filter (fun x => decide (0 < x.delta))) :=
    List.mem_of_mem_take h
  have h2 := (List.perm_insertionSort gdesc _).mem_iff.1 h1
  have h3 := List.mem_filter.1 h2
  exact ⟨h3.1, by simpa using h3.2⟩

theorem mem_of_mem_reductions (prev curr : List Business) (t : String) (r : Row)
    (h : r ∈ (top10 prev curr t).reductions) :
    r ∈ rowsOf prev curr t ∧ r.delta < 0 := by
  simp only [top10] at h
  have h1 : r ∈ List.insertionSort lasc
      ((rowsOf prev curr t).filter (fun x => decide (x.delta < 0))) :=
    List.mem_of_mem_take h
  have h2 := (List.perm_insertionSort lasc _).mem_iff.1 h1
  have h3 := List.mem_filter.1 h2
  exact ⟨h3.1, by simpa using h3.2⟩

/-- C5: for every previous and current input and every sector, no authority
name appears in both the growth list and the reductions list of the same
ranking result. -/
theorem c5_growth_reductions_disjoint (prev curr : List Business) (t la : String)
    (h : la ∈ (top10 prev curr t).growth.map (fun r => r.la)) :
    la ∉ (top10 prev curr t).reductions.map (fun r => r.la) := by
  intro h'
  obtain ⟨r1, hr1, hla1⟩ := List.mem_map.1 h
  obtain ⟨r2, hr2, hla2⟩ := List.mem_map.1 h'
  obtain ⟨hm1, hd1⟩ := mem_of_mem_growth prev curr t r1 hr1
  obtain ⟨hm2, hd2⟩ := mem_of_mem_reductions prev curr t r2 hr2
  have e1 := eq_mkRow_of_mem_rowsOf prev curr t r1 hm1
  have e2 := eq_mkRow_of_mem_rowsOf prev curr t r2 hm2
  have hr12 : r1 = r2 := by rw [e1, e2, hla1, hla2]
  rw [hr12] at hd1
  omega

/-- Witness for C5 at a concrete input. -/
theorem c5_witness :
    ("X" ∈ (top10 [] [⟨"1", "X", "Mobile caterer"⟩] "Mobile caterer").growth.map
        (fun r => r.la)) ∧
      "X" ∉ (top10 [] [⟨"1", "X", "Mobile caterer"⟩]
        "Mobile caterer").reductions.map (fun r => r.la) :=
  ⟨by decide, c5_growth_reductions_disjoint [] [⟨"1", "X", "Mobile caterer"⟩]
    "Mobile caterer" "X" (by decide)⟩

/-- C6: aggregation is order-independent: permuting the record sequence
yields the same aggregate table (same keys, same counts). -/
theorem c6_aggregation_order_independent (l l' : List Business) (t : String)
    (h : l.Perm l') (k : String) : mget (byLA l t) k = mget (byLA l' t) k := by
  rw [byLA_mget_eq, byLA_mget_eq]
  have hc : cntLA l t k = cntLA l' t k := List.Perm.countP_eq _ h
  rw [hc]

/-- Witness for C6 at a concrete permutation. -/
theorem c6_witness :
    ([⟨"1", "A", "Mobile caterer"⟩, ⟨"2", "B", "Mobile caterer"⟩] :
        List Business).Perm
        [⟨"2", "B", "Mobile caterer"⟩, ⟨"1", "A", "Mobile caterer"⟩] ∧
      mget (byLA [⟨"1", "A", "Mobile caterer"⟩, ⟨"2", "B", "Mobile caterer"⟩]
          "Mobile caterer") "A" =
        mget (byLA [⟨"2", "B", "Mobile caterer"⟩, ⟨"1", "A", "Mobile caterer"⟩]
          "Mobile caterer") "A" :=
  ⟨by decide,
    c6_aggregation_order_independent _ _ "Mobile caterer" (by decide) "A"⟩

/-- C7: aggregation maps each occurring (sector, authority) pair to its exact
occurrence count, stores no zero-count entry, and buckets an empty authority
under the sentinel "Unknown" instead of rejecting the record. -/
theorem c7_aggregate_exact_counts (l : List Business) (t k : String) :
    (cntLA l t k ≠ 0 → mget (byLA l t) k = some (cntLA l t k)) ∧
      (cntLA l t k = 0 → mget (byLA l t) k = none) ∧
      (∀ e : Business, e.la = "" → e.type = t → cntLA [e] t "Unknown" = 1) := by
  refine ⟨?_, ?_, ?_⟩
  · intro h
    rw [byLA_mget_eq]
    simp [h]
  · intro h
    rw [byLA_mget_eq]
    simp [h]
  · intro e h1 h2
    simp [cntLA, List.countP_cons, orUnknown, h1, h2]

/-- Witness for C7 at a concrete input with a duplicated authority. -/
theorem c7_witness :
    (cntLA [⟨"1", "A", "Mobile caterer"⟩, ⟨"2", "A", "Mobile caterer"⟩]
        "Mobile caterer" "A" ≠ 0) ∧
      mget (byLA [⟨"1", "A", "Mobile caterer"⟩, ⟨"2", "A", "Mobile caterer"⟩]
          "Mobile caterer") "A" =
        some (cntLA [⟨"1", "A", "Mobile caterer"⟩, ⟨"2", "A", "Mobile caterer"⟩]
          "Mobile caterer" "A") :=
  ⟨by decide, (c7_aggregate_exact_counts _ "Mobile caterer" "A").1 (by decide)⟩

/-- C8: an absent or unparseable previous snapshot is loaded as the fallback
(no error), and a run against the resulting empty previous table can produce
no negative delta: the reductions list is empty. -/
theorem c8_missing_prior_state_first_run (fallback curr : List Business)
    (t : String) :
    readJSONSafe none fallback = fallback ∧ (top10 [] curr t).reductions = [] := by
  refine ⟨rfl, ?_⟩
  have hfil : (rowsOf [] curr t).filter (fun r => decide (r.delta < 0)) = [] := by
    rw [List.filter_eq_nil_iff]
    intro r hr
    have he := eq_mkRow_of_mem_rowsOf [] curr t r hr
    rw [he]
    simp only [mkRow, byLA, List.foldl_nil, mget]
    simp
  simp [top10, hfil]

/-- C9: a previous PUB_BAR aggregate of exactly Y ↦ 4 against a current run
with zero PUB_BAR records ranks as empty growth and the single reduction row
Y with delta -4 and current 0. -/
theorem c9_disappearance (prev curr : List Business)
    (h1 : byLA prev "Pub/bar/nightclub" = [("Y", 4)])
    (h2 : byLA curr "Pub/bar/nightclub" = []) :
    top10 prev curr "Pub/bar/nightclub" =
      { growth := [], reductions := [{ la := "Y", delta := -4, current := 0 }] } := by
  have hrows : rowsOf prev curr "Pub/bar/nightclub" =
      [{ la := "Y", delta := -4, current := 0 }] := by
    unfold rowsOf
    rw [h1, h2]
    decide
  unfold top10
  rw [hrows]
  decide

/-- Witness for C9 at a concrete previous snapshot with four Y records. -/
theorem c9_witness :
    byLA [⟨"a", "Y", "Pub/bar/nightclub"⟩, ⟨"b", "Y", "Pub/bar/nightclub"⟩,
        ⟨"c", "Y", "Pub/bar/nightclub"⟩, ⟨"d", "Y", "Pub/bar/nightclub"⟩]
      "Pub/bar/nightclub" = [("Y", 4)] ∧
    top10 [⟨"a", "Y", "Pub/bar/nightclub"⟩, ⟨"b", "Y", "Pub/bar/nightclub"⟩,
        ⟨"c", "Y", "Pub/bar/nightclub"⟩, ⟨"d", "Y", "Pub/bar/nightclub"⟩] []
      "Pub/bar/nightclub" =
      { growth := [], reductions := [{ la := "Y", delta := -4, current := 0 }] } :=
  ⟨by decide, c9_disappearance _ _ (by decide) (by decide)⟩

theorem unknown_indicator (e : Business) (t : String) :
    (if decide (e.type = t ∧ orUnknown e.la = "Unknown") then 1 else 0) =
      (if decide (e.type = t ∧ e.la = "") then 1 else 0) +
        ((if decide (e.type = t ∧ e.la = "Unknown") then 1 else 0) : Nat) := by
  have hne : ("" : String) ≠ "Unknown" := by decide
  by_cases he : e.type = t
  · by_cases h1 : e.la = ""
    · simp [orUnknown, he, h1, hne, Ne.symm hne]
    · by_cases h2 : e.la = "Unknown"
      · simp [orUnknown, he, h1, h2]
      · simp [orUnknown, he, h1, h2]
  · simp [he]

/-- C10: records with an empty authority and records literally labelled
"Unknown" land in the same bucket: the stored count under "Unknown" is the
sum of the two populations. -/
theorem c10_unknown_bucket_merges (l : List Business) (t : String) :
    (mget (byLA l t) "Unknown").getD 0 =
      l.countP (fun e => decide (e.type = t ∧ e.la = "")) +
        l.countP (fun e => decide (e.type = t ∧ e.la = "Unknown")) := by
  rw [byLA_getD]
  unfold cntLA
  induction l with
  | nil => simp
  | cons e rest ih =>
    simp only [List.countP_cons, ih, unknown_indicator e t]
    omega

/-- A 25-authority demonstration input: authority "A(i+10)" occurs i+1
times, so all 25 deltas are positive and pairwise distinct. -/
def demo25 : List Business :=
  ((List.range 25).map (fun i =>
    List.replicate (i + 1)
      (⟨toString i, "A" ++ toString (i + 10), "Mobile caterer"⟩ : Business))).flatten

/-- C4: each ranking list has at most 10 rows; with 25 authorities of
pairwise distinct positive deltas, growth is exactly the 10 largest. -/
theorem c4_bounded_output :
    (∀ prev curr : List Business, ∀ t : String,
        (top10 prev curr t).growth.length ≤ 10 ∧
          (top10 prev curr t).reductions.length ≤ 10) ∧
      (top10 [] demo25 "Mobile caterer").growth =
        [⟨"A34", 25, 25⟩, ⟨"A33", 24, 24⟩, ⟨"A32", 23, 23⟩, ⟨"A31", 22, 22⟩,
         ⟨"A30", 21, 21⟩, ⟨"A29", 20, 20⟩, ⟨"A28", 19, 19⟩, ⟨"A27", 18, 18⟩,
         ⟨"A26", 17, 17⟩, ⟨"A25", 16, 16⟩] := by
  constructor
  · intro prev curr t
    constructor
    · simp only [top10]
      rw [List.length_take]
      exact min_le_left _ _
    · simp only [top10]
      rw [List.length_take]
      exact min_le_left _ _
  · decide

/-- C3 counterexample: two authorities with equal deltas in the same growth
list appear in encounter order ("Z" first), not ascending name order, even
though "A" < "Z". -/
theorem c3_counterexample :
    (top10 [] [⟨"1", "Z", "Mobile caterer"⟩, ⟨"2", "A", "Mobile caterer"⟩]
        "Mobile caterer").growth.map (fun r => r.la) = ["Z", "A"] ∧
      (top10 [] [⟨"1", "Z", "Mobile caterer"⟩, ⟨"2", "A", "Mobile caterer"⟩]
        "Mobile caterer").growth.map (fun r => r.delta) = [1, 1] ∧
      ("A" : String) < "Z" := by
  refine ⟨by decide, by decide, ?_⟩
  rw [String.lt_iff_toList_lt]
  decide

/-- C3 (amended): the sort is stable, so equal-delta rows keep their
first-occurrence order: for each delta value, the equal-delta rows of a
ranking list form a prefix of the equal-delta rows of the sign-filtered row
enumeration (previous-table authorities first, in insertion order, then
current-only authorities). -/
theorem c3_equal_deltas_keep_encounter_order (prev curr : List Business)
    (t : String) (d : Int) :
    (∃ rest,
        (top10 prev curr t).growth.filter (fun r => decide (r.delta = d)) ++ rest =
          ((rowsOf prev curr t).filter (fun r => decide (0 < r.delta))).filter
            (fun r => decide (r.delta = d))) ∧
      (∃ rest,
        (top10 prev curr t).reductions.filter (fun r => decide (r.delta = d)) ++
            rest =
          ((rowsOf prev curr t).filter (fun r => decide (r.delta < 0))).filter
            (fun r => decide (r.delta = d))) := by
  constructor
  · refine ⟨((List.insertionSort gdesc ((rowsOf prev curr t).filter
        (fun r => decide (0 < r.delta)))).drop 10).filter
        (fun r => decide (r.delta = d)), ?_⟩
    simp only [top10]
    rw [← List.filter_append, List.take_append_drop]
    apply filter_insertionSort
    intro a b ha hr
    simp only [gdesc, not_le] at hr
    omega
  · refine ⟨((List.insertionSort lasc ((rowsOf prev curr t).filter
        (fun r => decide (r.delta < 0)))).drop 10).filter
        (fun r => decide (r.delta = d)), ?_⟩
    simp only [top10]
    rw [← List.filter_append, List.take_append_drop]
    apply filter_insertionSort
    intro a b ha hr
    simp only [lasc, not_le] at hr
    omega

instance (prev curr : List Business) (t la : String) :
    Decidable (inUnion prev curr t la) := by
  unfold inUnion
  infer_instance

theorem mem_take_sort_or_full (rel : Row → Row → Prop) [DecidableRel rel]
    (F : List Row) (x : Row) (hx : x ∈ F) :
    x ∈ (List.insertionSort rel F).take 10 ∨
      ((List.insertionSort rel F).take 10).length = 10 := by
  by_cases hlen : (List.insertionSort rel F).length ≤ 10
  · left
    rw [List.take_of_length_le hlen]
    exact (List.perm_insertionSort rel F).mem_iff.2 hx
  · right
    rw [List.length_take]
    omega

theorem take_sort_cutoff (rel : Row → Row → Prop) [DecidableRel rel]
    [IsTotal Row rel] [IsTrans Row rel]
    (F : List Row) (x : Row) (hx : x ∈ F)
    (hnot : x ∉ (List.insertionSort rel F).take 10) :
    ∀ r ∈ (List.insertionSort rel F).take 10, rel r x := by
  intro r hr
  have hxS : x ∈ List.insertionSort rel F :=
    (List.perm_insertionSort rel F).mem_iff.2 hx
  have hsplit : (List.insertionSort rel F).take 10 ++
      (List.insertionSort rel F).drop 10 = List.insertionSort rel F :=
    List.take_append_drop 10 _
  have hxdrop : x ∈ (List.insertionSort rel F).drop 10 := by
    rcases List.mem_append.1 (hsplit ▸ hxS) with h | h
    · exact absurd h hnot
    · exact h
  have hsorted : List.Pairwise rel (List.insertionSort rel F) :=
    List.sorted_insertionSort rel F
  have hs2 : List.Pairwise rel ((List.insertionSort rel F).take 10 ++
      (List.insertionSort rel F).drop 10) := hsplit.symm ▸ hsorted
  exact (List.pairwise_append.1 hs2).2.2 r hr x hxdrop

theorem mkRow_mem_growth_filter (prev curr : List Business) (t la : String)
    (hu : inUnion prev curr t la) (hpos : 0 < deltaOf prev curr t la) :
    mkRow (byLA prev t) (byLA curr t) la ∈
      (rowsOf prev curr t).filter (fun r => decide (0 < r.delta)) := by
  refine List.mem_filter.2 ⟨?_, ?_⟩
  · exact (mem_rowsOf prev curr t _).2 ⟨la, hu, rfl⟩
  · simpa [mkRow, deltaOf] using hpos

theorem mkRow_mem_reductions_filter (prev curr : List Business) (t la : String)
    (hu : inUnion prev curr t la) (hneg : deltaOf prev curr t la < 0) :
    mkRow (byLA prev t) (byLA curr t) la ∈
      (rowsOf prev curr t).filter (fun r => decide (r.delta < 0)) := by
  refine List.mem_filter.2 ⟨?_, ?_⟩
  · exact (mem_rowsOf prev curr t _).2 ⟨la, hu, rfl⟩
  · simpa [mkRow, deltaOf] using hneg

/-- C1 (amended): every growth row carries a positive delta, an authority of
the union, and the delta and current count computed from the two aggregate
tables; every positive-delta authority of the union is listed unless growth
is already full at 10 rows, in which case only rows with at least its delta
are listed; growth is sorted descending by delta. Dually for reductions
(negative deltas, ascending order). Zero-delta authorities appear in
neither list. -/
theorem c1_ranking_partition_sort (prev curr : List Business) (t : String) :
    ((∀ r ∈ (top10 prev curr t).growth,
        0 < r.delta ∧ inUnion prev curr t r.la ∧
          r.delta = deltaOf prev curr t r.la ∧
          r.current = (mget (byLA curr t) r.la).getD 0) ∧
      (∀ la, inUnion prev curr t la → 0 < deltaOf prev curr t la →
        la ∈ (top10 prev curr t).growth.map (fun r => r.la) ∨
          (top10 prev curr t).growth.length = 10) ∧
      (∀ la, inUnion prev curr t la → 0 < deltaOf prev curr t la →
        la ∉ (top10 prev curr t).growth.map (fun r => r.la) →
        ∀ r ∈ (top10 prev curr t).growth, deltaOf prev curr t la ≤ r.delta) ∧
      (top10 prev curr t).growth.Pairwise gdesc) ∧
    ((∀ r ∈ (top10 prev curr t).reductions,
        r.delta < 0 ∧ inUnion prev curr t r.la ∧
          r.delta = deltaOf prev curr t r.la ∧
          r.current = (mget (byLA curr t) r.la).getD 0) ∧
      (∀ la, inUnion prev curr t la → deltaOf prev curr t la < 0 →
        la ∈ (top10 prev curr t).reductions.map (fun r => r.la) ∨
          (top10 prev curr t).reductions.length = 10) ∧
      (∀ la, inUnion prev curr t la → deltaOf prev curr t la < 0 →
        la ∉ (top10 prev curr t).reductions.map (fun r => r.la) →
        ∀ r ∈ (top10 prev curr t).reductions, r.delta ≤ deltaOf prev curr t la) ∧
      (top10 prev curr t).reductions.Pairwise lasc) ∧
    (∀ la, deltaOf prev curr t la = 0 →
      la ∉ (top10 prev curr t).growth.map (fun r => r.la) ∧
        la ∉ (top10 prev curr t).reductions.map (fun r => r.la)) := by
  have hmemG : ∀ r ∈ (top10 prev curr t).growth,
      0 < r.delta ∧ inUnion prev curr t r.la ∧
        r.delta = deltaOf prev curr t r.la ∧
        r.current = (mget (byLA curr t) r.la).getD 0 := by
    intro r hr
    obtain ⟨hm, hd⟩ := mem_of_mem_growth prev curr t r hr
    obtain ⟨la, hu, heq⟩ := (mem_rowsOf prev curr t r).1 hm
    have hla : r.la = la := by rw [← heq, mkRow_la]
    refine ⟨hd, ?_, ?_, ?_⟩
    · rw [hla]; exact hu
    · rw [hla, ← heq]; rfl
    · rw [hla, ← heq]; rfl
  have hmemR : ∀ r ∈ (top10 prev curr t).reductions,
      r.delta < 0 ∧ inUnion prev curr t r.la ∧
        r.delta = deltaOf prev curr t r.la ∧
        r.current = (mget (byLA curr t) r.la).getD 0 := by
    intro r hr
    obtain ⟨hm, hd⟩ := mem_of_mem_reductions prev curr t r hr
    obtain ⟨la, hu, heq⟩ := (mem_rowsOf prev curr t r).1 hm
    have hla : r.la = la := by rw [← heq, mkRow_la]
    refine ⟨hd, ?_, ?_, ?_⟩
    · rw [hla]; exact hu
    · rw [hla, ← heq]; rfl
    · rw [hla, ← heq]; rfl
  refine ⟨⟨hmemG, ?_, ?_, ?_⟩, ⟨hmemR, ?_, ?_, ?_⟩, ?_⟩
  · intro la hu hpos
    have hx := mkRow_mem_growth_filter prev curr t la hu hpos
    rcases mem_take_sort_or_full gdesc _ _ hx with h | h
    · left
      have : (mkRow (byLA prev t) (byLA curr t) la).la ∈
          (top10 prev curr t).growth.map (fun r => r.la) :=
        List.mem_map_of_mem _ h
      simpa [mkRow_la] using this
    · right
      exact h
  · intro la hu hpos hnotin
    have hx := mkRow_mem_growth_filter prev curr t la hu hpos
    have hnot : mkRow (byLA prev t) (byLA curr t) la ∉
        (top10 prev curr t).growth := by
      intro hmem
      exact hnotin (by simpa [mkRow_la] using
        List.mem_map_of_mem (fun r => r.la) hmem)
    intro r hr
    have := take_sort_cutoff gdesc _ _ hx hnot r hr
    simpa [gdesc, mkRow, deltaOf] using this
  · exact List.Pairwise.sublist (List.take_sublist _ _)
      (List.sorted_insertionSort gdesc _)
  · intro la hu hneg
    have hx := mkRow_mem_reductions_filter prev curr t la hu hneg
    rcases mem_take_sort_or_full lasc _ _ hx with h | h
    · left
      have : (mkRow (byLA prev t) (byLA curr t) la).la ∈
          (top10 prev curr t).reductions.map (fun r => r.la) :=
        List.mem_map_of_mem _ h
      simpa [mkRow_la] using this
    · right
      exact h
  · intro la hu hneg hnotin
    have hx := mkRow_mem_reductions_filter prev curr t la hu hneg
    have hnot : mkRow (byLA prev t) (byLA curr t) la ∉
        (top10 prev curr t).reductions := by
      intro hmem
      exact hnotin (by simpa [mkRow_la] using
        List.mem_map_of_mem (fun r => r.la) hmem)
    intro r hr
    have := take_sort_cutoff lasc _ _ hx hnot r hr
    simpa [lasc, mkRow, deltaOf] using this
  · exact List.Pairwise.sublist (List.take_sublist _ _)
      (List.sorted_insertionSort lasc _)
  · intro la hz
    constructor
    · intro hmem
      obtain ⟨r, hr, hla⟩ := List.mem_map.1 hmem
      obtain ⟨hd, _, hdr, _⟩ := hmemG r hr
      rw [hdr, hla, hz] at hd
      exact absurd hd (lt_irrefl 0)
    · intro hmem
      obtain ⟨r, hr, hla⟩ := List.mem_map.1 hmem
      obtain ⟨hd, _, hdr, _⟩ := hmemR r hr
      rw [hdr, hla, hz] at hd
      exact absurd hd (lt_irrefl 0)

/-- Witness for C1 at a concrete input, exercising the completeness clause. -/
theorem c1_witness :
    (inUnion [] [⟨"1", "X", "Mobile caterer"⟩] "Mobile caterer" "X" ∧
        0 < deltaOf [] [⟨"1", "X", "Mobile caterer"⟩] "Mobile caterer" "X") ∧
      ("X" ∈ (top10 [] [⟨"1", "X", "Mobile caterer"⟩]
            "Mobile caterer").growth.map (fun r => r.la) ∨
        (top10 [] [⟨"1", "X", "Mobile caterer"⟩]
            "Mobile caterer").growth.length = 10) :=
  ⟨⟨by decide, by decide⟩,
    (c1_ranking_partition_sort [] [⟨"1", "X", "Mobile caterer"⟩]
        "Mobile caterer").1.2.1 "X" (by decide) (by decide)⟩

/-- C1 counterexample to the unamended claim: with 11 positive-delta
authorities, "K11" has a positive delta yet is absent from growth, so growth
does not contain exactly the positive-delta authorities. -/
theorem c1_counterexample :
    (0 < deltaOf []
        [⟨"1", "K01", "Mobile caterer"⟩, ⟨"2", "K02", "Mobile caterer"⟩,
         ⟨"3", "K03", "Mobile caterer"⟩, ⟨"4", "K04", "Mobile caterer"⟩,
         ⟨"5", "K05", "Mobile caterer"⟩, ⟨"6", "K06", "Mobile caterer"⟩,
         ⟨"7", "K07", "Mobile caterer"⟩, ⟨"8", "K08", "Mobile caterer"⟩,
         ⟨"9", "K09", "Mobile caterer"⟩, ⟨"10", "K10", "Mobile caterer"⟩,
         ⟨"11", "K11", "Mobile caterer"⟩] "Mobile caterer" "K11") ∧
      "K11" ∉ (top10 []
        [⟨"1", "K01", "Mobile caterer"⟩, ⟨"2", "K02", "Mobile caterer"⟩,
         ⟨"3", "K03", "Mobile caterer"⟩, ⟨"4", "K04", "Mobile caterer"⟩,
         ⟨"5", "K05", "Mobile caterer"⟩, ⟨"6", "K06", "Mobile caterer"⟩,
         ⟨"7", "K07", "Mobile caterer"⟩, ⟨"8", "K08", "Mobile caterer"⟩,
         ⟨"9", "K09", "Mobile caterer"⟩, ⟨"10", "K10", "Mobile caterer"⟩,
         ⟨"11", "K11", "Mobile caterer"⟩] "Mobile caterer").growth.map
        (fun r => r.la) := by decide

theorem insertionSort_eq_of_perm_of_distinct (rel srel : Row → Row → Prop)
    [DecidableRel rel] [IsTotal Row rel] [IsTrans Row rel]
    (himp : ∀ a b : Row, rel a b → a.delta ≠ b.delta → srel a b)
    (hanti : ∀ a b : Row, srel a b → srel b a → a = b)
    (F1 F2 : List Row) (hperm : F1.Perm F2)
    (hne : F1.Pairwise (fun a b => a.delta ≠ b.delta)) :
    List.insertionSort rel F1 = List.insertionSort rel F2 := by
  have hp : (List.insertionSort rel F1).Perm (List.insertionSort rel F2) :=
    ((List.perm_insertionSort rel F1).trans hperm).trans
      (List.perm_insertionSort rel F2).symm
  have hne2 : F2.Pairwise (fun a b => a.delta ≠ b.delta) :=
    (hperm.pairwise_iff (fun h => Ne.symm h)).1 hne
  have hS1ne : (List.insertionSort rel F1).Pairwise
      (fun a b => a.delta ≠ b.delta) :=
    ((List.perm_insertionSort rel F1).pairwise_iff (fun h => Ne.symm h)).2 hne
  have hS2ne : (List.insertionSort rel F2).Pairwise
      (fun a b => a.delta ≠ b.delta) :=
    ((List.perm_insertionSort rel F2).pairwise_iff (fun h => Ne.symm h)).2 hne2
  have hstrict1 : List.Pairwise srel (List.insertionSort rel F1) :=
    List.Pairwise.imp (fun h => himp _ _ h.1 h.2)
      ((List.sorted_insertionSort rel F1).and hS1ne)
  have hstrict2 : List.Pairwise srel (List.insertionSort rel F2) :=
    List.Pairwise.imp (fun h => himp _ _ h.1 h.2)
      ((List.sorted_insertionSort rel F2).and hS2ne)
  haveI : IsAntisymm Row srel := ⟨hanti⟩
  exact List.eq_of_perm_of_sorted hp hstrict1 hstrict2

/-- C2 (amended): when the two inputs denote the same pair of aggregate
tables (entry-permutation of each other) and the deltas of the first input's
row enumeration are pairwise distinct, the ranking output is identical; the
unamended claim fails only on tie ordering (see the counterexample). -/
theorem c2_table_determinism (pr1 cu1 pr2 cu2 : List Business) (t : String)
    (hp : (byLA pr1 t).Perm (byLA pr2 t))
    (hc : (byLA cu1 t).Perm (byLA cu2 t))
    (hd : (rowsOf pr1 cu1 t).Pairwise (fun a b => a.delta ≠ b.delta)) :
    top10 pr1 cu1 t = top10 pr2 cu2 t := by
  have hpm : ∀ k, mget (byLA pr1 t) k = mget (byLA pr2 t) k :=
    mget_eq_of_perm _ _ hp (byLA_nodup_keys _ _) (byLA_nodup_keys _ _)
  have hcm : ∀ k, mget (byLA cu1 t) k = mget (byLA cu2 t) k :=
    mget_eq_of_perm _ _ hc (byLA_nodup_keys _ _) (byLA_nodup_keys _ _)
  have hmk : ∀ la, mkRow (byLA pr1 t) (byLA cu1 t) la =
      mkRow (byLA pr2 t) (byLA cu2 t) la := by
    intro la
    unfold mkRow
    rw [hpm, hcm]
  have hlas : (unionKeys (keysOf (byLA pr1 t) ++ keysOf (byLA cu1 t))).Perm
      (unionKeys (keysOf (byLA pr2 t) ++ keysOf (byLA cu2 t))) := by
    rw [List.perm_ext_iff_of_nodup (nodup_unionKeys _) (nodup_unionKeys _)]
    intro a
    simp only [mem_unionKeys, List.mem_append, mem_keysOf_iff, hpm, hcm]
  have hrows : (rowsOf pr1 cu1 t).Perm (rowsOf pr2 cu2 t) := by
    unfold rowsOf
    have h2 : (unionKeys (keysOf (byLA pr2 t) ++ keysOf (byLA cu2 t))).map
        (mkRow (byLA pr2 t) (byLA cu2 t)) =
        (unionKeys (keysOf (byLA pr2 t) ++ keysOf (byLA cu2 t))).map
          (mkRow (byLA pr1 t) (byLA cu1 t)) :=
      List.map_congr_left (fun a _ => (hmk a).symm)
    rw [h2]
    exact hlas.map _
  have hG : List.insertionSort gdesc
      ((rowsOf pr1 cu1 t).filter (fun r => decide (0 < r.delta))) =
      List.insertionSort gdesc
        ((rowsOf pr2 cu2 t).filter (fun r => decide (0 < r.delta))) :=
    insertionSort_eq_of_perm_of_distinct gdesc (fun a b => b.delta < a.delta)
      (fun _ _ hle hne => lt_of_le_of_ne hle (Ne.symm hne))
      (fun _ _ h1 h2 => absurd (lt_trans h2 h1) (lt_irrefl _))
      _ _ (hrows.filter _)
      (List.Pairwise.sublist (List.filter_sublist _) hd)
  have hR : List.insertionSort lasc
      ((rowsOf pr1 cu1 t).filter (fun r => decide (r.delta < 0))) =
      List.insertionSort lasc
        ((rowsOf pr2 cu2 t).filter (fun r => decide (r.delta < 0))) :=
    insertionSort_eq_of_perm_of_distinct lasc (fun a b => a.delta < b.delta)
      (fun _ _ hle hne => lt_of_le_of_ne hle hne)
      (fun _ _ h1 h2 => absurd (lt_trans h1 h2) (lt_irrefl _))
      _ _ (hrows.filter _)
      (List.Pairwise.sublist (List.filter_sublist _) hd)
  unfold top10
  rw [hG, hR]

/-- C2 counterexample: two current-run inputs denoting the same aggregate
table (a tie between A and Z) produce different ranking outputs, so the
result is not a function of the tables alone. -/
theorem c2_counterexample :
    (byLA [⟨"1", "Z", "Mobile caterer"⟩, ⟨"2", "A", "Mobile caterer"⟩]
        "Mobile caterer").Perm
      (byLA [⟨"2", "A", "Mobile caterer"⟩, ⟨"1", "Z", "Mobile caterer"⟩]
        "Mobile caterer") ∧
      top10 [] [⟨"1", "Z", "Mobile caterer"⟩, ⟨"2", "A", "Mobile caterer"⟩]
          "Mobile caterer" ≠
        top10 [] [⟨"2", "A", "Mobile caterer"⟩, ⟨"1", "Z", "Mobile caterer"⟩]
          "Mobile caterer" := by decide

/-- Witness for C2 at concrete permuted inputs with distinct deltas. -/
theorem c2_witness :
    ((byLA [⟨"1", "A", "Mobile caterer"⟩, ⟨"2", "B", "Mobile caterer"⟩,
          ⟨"3", "B", "Mobile caterer"⟩] "Mobile caterer").Perm
        (byLA [⟨"3", "B", "Mobile caterer"⟩, ⟨"2", "B", "Mobile caterer"⟩,
          ⟨"1", "A", "Mobile caterer"⟩] "Mobile caterer")) ∧
      top10 [] [⟨"1", "A", "Mobile caterer"⟩, ⟨"2", "B", "Mobile caterer"⟩,
          ⟨"3", "B", "Mobile caterer"⟩] "Mobile caterer" =
        top10 [] [⟨"3", "B", "Mobile caterer"⟩, ⟨"2", "B", "Mobile caterer"⟩,
          ⟨"1", "A", "Mobile caterer"⟩] "Mobile caterer" :=
  ⟨by decide,
    c2_table_determinism [] _ [] _ "Mobile caterer" (by decide) (by decide)
      (by decide)⟩

example :
    top10 []
      [⟨"1", "B", "Mobile caterer"⟩, ⟨"2", "A", "Mobile caterer"⟩,
       ⟨"3", "A", "Mobile caterer"⟩, ⟨"4", "C", "Takeaway/sandwich shop"⟩]
      "Mobile caterer" =
    { growth := [⟨"A", 2, 2⟩, ⟨"B", 1, 1⟩], reductions := [] } := by decide

example :
    top10 [⟨"1", "B", "Mobile caterer"⟩, ⟨"2", "A", "Mobile caterer"⟩] []
      "Mobile caterer" =
    { growth := [], reductions := [⟨"B", -1, 0⟩, ⟨"A", -1, 0⟩] } := by decide

example : byLA [⟨"1", "", "Mobile caterer"⟩] "Mobile caterer" = [("Unknown", 1)] := by
  decide

end Pulse
